import Mathlib

/-!
Verification of `click_completion_zsh` (`src/click_completion_zsh/__init__.py`).

The Python module renders a click command tree (as the plain nested-dict
representation produced by `Context.to_info_dict`) into a zsh completion
script, and serves dynamic completion requests by looking a type name up in
the live command tree.

This file gives a shallow embedding of the module's pure core:
  * `quote`            — the quoting engine (`quote` in the source);
  * `get_help`         — the help-text normalizer (`get_help`);
  * `complete_type`    — the parameter/type spec builder (`complete_type`);
  * `complete_command` — the command-tree renderer (`complete_command`);
  * `complete`         — the script assembler (`complete`);
  * `find_param_type` / `zsh2Complete` — the dynamic completion path
    (`find_param_type` and `Zsh2Complete.complete`).

Python dicts are modelled by typed structures carrying exactly the fields the
code reads; `None`-able fields become `Option`; code that can raise
(`IndexError` from `help[0]` / `specs[-1]`, the `ValueError` for an unknown
parameter kind) returns `Except String _` with the error message as payload.
Insertion-ordered dicts (`command['commands']`) become association lists.
Python string/char predicates (`isupper`, `lower`) are modelled at ASCII
granularity, which is where the source's regexes and literals live.
-/

/-! ## Quoting engine (`quote`, source lines 17–34) -/

/-- The apostrophe character `'` (written via its code point to keep the file
free of escaped-quote character literals). -/
def squote : Char := Char.ofNat 39

/-- The backtick character (code point 96). -/
def btick : Char := Char.ofNat 96

/-- The backslash character. -/
def bslash : Char := Char.ofNat 92

/-- One character of the regex class `[A-Za-z0-9_+-]` from
`match('^[A-Za-z0-9_+-]*$', value)`. -/
def unquotedChar (c : Char) : Bool :=
  c.isAlpha || c.isDigit || c = '_' || c = '+' || c = '-'

/-- Model: `re.match('^[A-Za-z0-9_+-]*$', value)` is truthy, with Python's `$`
semantics: `$` matches at the end of the string or just before a single
trailing newline, so `"abc\n"` also matches. -/
def matchesUnquoted (value : String) : Bool :=
  value.data.all unquotedChar ||
    (match value.data.getLast? with
     | some c => c = '\n' && value.data.dropLast.all unquotedChar
     | none => false)

/-- Per-character expansion of `value.replace("'", "'\\''")`: each `'`
becomes the four characters `'\''`. -/
def escSingleList : List Char → List Char
  | [] => []
  | c :: cs =>
    (if c = squote then [squote, bslash, squote, squote] else [c]) ++ escSingleList cs

/-- The characters `re.sub` escapes in the double-quote dialect:
`!`, `$`, `\`, `"`, and backtick. -/
def doubleSpecial (c : Char) : Bool :=
  c = '!' || c = '$' || c = bslash || c = '"' || c = btick

/-- Per-character expansion of `sub(r'([!$\\"`])', r'\\\1', value)`: each
special character is prefixed with a backslash. -/
def escDoubleList : List Char → List Char
  | [] => []
  | c :: cs => (if doubleSpecial c then [bslash, c] else [c]) ++ escDoubleList cs

/-- Model: `quote(value, embed, double)` from the source.  The Python signature has
keyword defaults `embed=False, double=False`; call sites here always pass both
arguments positionally. -/
def quote (value : String) (embed : Bool) (double : Bool) : String :=
  if matchesUnquoted value then value
  else
    let v : String := if double then ⟨escDoubleList value.data⟩ else ⟨escSingleList value.data⟩
    if embed then v
    else
      let q : String := if double then "\"" else "'"
      q ++ v ++ q

/-! ## Help-text normalizer (`get_help`, source lines 37–56) -/

/-- The fields of the parameter/command info dict that `get_help` reads. -/
structure HelpInfo where
  name : String
  short_help : Option String
  help : Option String

/-- Model: `help = param.get('short_help'); if help is None: help = param.get('help')`. -/
def selectedHelp (p : HelpInfo) : Option String :=
  match p.short_help with
  | some h => some h
  | none => p.help

/-- Model: `help.rstrip('.')` on the character list: drop every trailing `'.'`. -/
def rstripDotsList (l : List Char) : List Char :=
  (l.reverse.dropWhile (fun c => c = '.')).reverse

/-- Model: `help.rstrip('.')`. -/
def rstripDots (s : String) : String := ⟨rstripDotsList s.data⟩

/-- Model: `help.split(' ')[0]`: everything before the first space. -/
def firstWord (s : String) : String := ⟨s.data.takeWhile (fun c => c ≠ ' ')⟩

/-- Model: `get_help(param)` from the source.  `.error` models the `IndexError`
raised by `help[0]` when the stripped help text is empty (Python's `c.isupper()`
and `.lower()` are modelled at ASCII granularity by `Char.isUpper` /
`Char.toLower`, which is exact on the ASCII range). -/
def get_help (p : HelpInfo) : Except String (Option String) :=
  match selectedHelp p with
  | none => .ok none
  | some h =>
    if p.name = "help" then .ok (some "display usage information")
    else
      let stripped := rstripDots h
      let fw := firstWord stripped
      if (fw.drop 1).data.all (fun c => ¬ c.isUpper) then
        match stripped.data with
        | [] => .error "IndexError: string index out of range"
        | c :: cs => .ok (some ⟨c.toLower :: cs⟩)
      else .ok (some stripped)

/-! ## Type descriptors and `complete_type` (source lines 169–218) -/

mutual
/-- The `param['type']` info dict, as a closed sum over the `param_type` tags
the source inspects.  `FloatRange` bounds are carried as their printed decimal
form (the code never computes with them, it only interpolates them into the
output); `IntRange` bounds, which the code increments/decrements, are `Int`.
`default` values likewise appear in the output only via string interpolation,
so defaults are carried as their printed form throughout.  The nested list of
a `Tuple`'s member types is the mutually defined `PTypeList` so that all
recursion over type descriptors stays structural. -/
inductive PType where
  | Bool : PType
  | Choice (choices : List String) : PType
  | File : PType
  | Path (file_okay dir_okay : Bool) : PType
  | IntRange (min max : Option Int) (min_open max_open : Bool) : PType
  | FloatRange (min max : Option String) (min_open max_open : Bool) : PType
  | Tuple (types : PTypeList) : PType
  | Other (param_type : String) : PType

/-- A list of nested type descriptors (the `param['types']` of a `Tuple`). -/
inductive PTypeList where
  | nil : PTypeList
  | cons : PType → PTypeList → PTypeList
end

/-- The nested `Tuple` member types as an ordinary list. -/
def PTypeList.toList : PTypeList → List PType
  | .nil => []
  | .cons t rest => t :: rest.toList

/-- Model: `name[:-1] if name[-1] == '_' else name` (strip one trailing underscore;
the source convention for names colliding with reserved words).  Python raises
`IndexError` on an empty name; click parameter names are nonempty, and the
theorems below that depend on this helper carry a `name ≠ ""` hypothesis. -/
def stripTrailingUnderscore (name : String) : String :=
  match name.data.getLast? with
  | some c => if c = '_' then ⟨name.data.dropLast⟩ else name
  | none => name

mutual
/-- Model: `complete_type(param, name, default)` from the source, one value-spec
fragment per type descriptor.  The source is a single function testing
`param['param_type']` against each tag in turn; here each tag is a match arm.
The `IntRange`/`FloatRange` arms build the `_numbers` action exactly as the
source does: float flag (`-f`) only for `FloatRange`, `-d` for a present
default, `-l`/`-m` for present bounds with the open-interval ±1 adjustment
applied only when `param_type == 'IntRange'`. -/
def complete_type (param : PType) (name : String) (default : Option String) : String :=
  let message := stripTrailingUnderscore name ++
    (match default with | some d => " [" ++ d ++ "]" | none => "")
  match param with
  | .Bool => ":" ++ message ++ ":(0 1 false true f t no yes n y off on)"
  | .Choice choices =>
    ":" ++ message ++ ":(" ++
      String.intercalate " " (choices.map (fun c => quote c false true)) ++ ")"
  | .File => ":" ++ message ++ ":_files"
  | .Path file_okay dir_okay =>
    ":" ++ message ++ ":_files" ++
      (if file_okay = false && dir_okay = true then " -/" else "")
  | .IntRange mn mx mno mxo =>
    let action := "_numbers"
    let action := match default with | some d => action ++ " -d " ++ d | none => action
    let action := match mn with
      | some m => action ++ " -l " ++ toString (if mno then m + 1 else m)
      | none => action
    let action := match mx with
      | some m => action ++ " -m " ++ toString (if mxo then m - 1 else m)
      | none => action
    ": :" ++ action ++ " " ++ quote name false true
  | .FloatRange mn mx _ _ =>
    let action := "_numbers -f"
    let action := match default with | some d => action ++ " -d " ++ d | none => action
    let action := match mn with | some m => action ++ " -l " ++ m | none => action
    let action := match mx with | some m => action ++ " -m " ++ m | none => action
    ": :" ++ action ++ " " ++ quote name false true
  | .Tuple types => String.intercalate " " (completeTypeParts types name)
  | .Other _ => ":" ++ message ++ ":"

/-- The recursive fragments of a `Tuple`'s member types:
`[complete_type(argument, name, None) for argument in param['types']]` —
note the default handed to every nested element is `None`. -/
def completeTypeParts (l : PTypeList) (name : String) : List String :=
  match l with
  | .nil => []
  | .cons t rest => complete_type t name none :: completeTypeParts rest name
end

/-! ## Parameter descriptors and the renderer (`complete_command`, source lines 77–166) -/

/-- The fields of a parameter info dict (`command['params'][i]`) that the
renderer reads.  `param_type_name` is the kind tag (`"option"` /
`"argument"`); `nargs` is an `Int` because variadic arguments are encoded as
`-1`. -/
structure ParamInfo where
  param_type_name : String
  name : String
  opts : List String
  secondary_opts : List String
  multiple : Bool
  count : Bool
  is_flag : Bool
  nargs : Int
  default : Option String
  short_help : Option String
  help : Option String
  type : PType

/-- The sub-dict of a parameter that `get_help` reads. -/
def ParamInfo.toHelp (p : ParamInfo) : HelpInfo :=
  ⟨p.name, p.short_help, p.help⟩

/-- Model: `param['type']['param_type'] == 'Tuple'`. -/
def isTuple : PType → Bool
  | .Tuple _ => true
  | _ => false

/-- The value-spec portion of an option's spec (source lines 113–117): empty
for flags and counters, otherwise the `complete_type` fragment joined
`count` times where `count = 1 if param['type']['param_type'] == 'Tuple'
else param['nargs']` (tuple repetition is handled inside `complete_type`). -/
def optionValueClause (p : ParamInfo) : String :=
  if p.is_flag || p.count then ""
  else
    let argspec := complete_type p.type p.name p.default
    let count : Int := if isTuple p.type then 1 else p.nargs
    String.intercalate " " (List.replicate count.toNat argspec)

/-- The full spec built for one option parameter (source lines 96–121):
optional repeat marker or exclusion group, the alias clause, the optional
bracketed help, and the value-spec clause, all wrapped in `'…'`.  The braces
of the alias group are written `\x7b`/`\x7d`. -/
def optionSpec (p : ParamInfo) : Except String String :=
  let all_names := p.opts ++ p.secondary_opts
  let pre :=
    if p.multiple || p.count then "*"
    else if all_names.length > 1 then
      "(" ++ String.intercalate " " (all_names.map (fun o => quote o true false)) ++ ")"
    else ""
  let nameClause :=
    match all_names with
    | [only] => quote only true false
    | _ => "'\x7b" ++ String.intercalate "," (all_names.map (fun o => quote o false false)) ++ "\x7d'"
  match get_help p.toHelp with
  | .error e => .error e
  | .ok helpOpt =>
    let helpClause :=
      match helpOpt with
      | some h => "[" ++ quote h true false ++ "]"
      | none => ""
    .ok ("'" ++ pre ++ nameClause ++ helpClause ++ optionValueClause p ++ "'")

/-- The loop state of `complete_command`'s parameter loop: the `specs` built
so far, `arg_count`, and the `has_variadic` flag. -/
structure RState where
  specs : List String
  arg_count : Nat
  has_variadic : Bool
  deriving DecidableEq, Repr

/-- One iteration of the parameter loop (source lines 94–137).  Options append
their `optionSpec`; arguments are skipped entirely once `has_variadic` is set,
and otherwise append their (possibly `*`-prefixed) fragment `count` times with
`count = 1` for a variadic and `nargs` otherwise; any other kind raises
`ValueError`. -/
def paramStep (s : RState) (p : ParamInfo) : Except String RState :=
  if p.param_type_name = "option" then
    match optionSpec p with
    | .error e => .error e
    | .ok spec => .ok { s with specs := s.specs ++ [spec] }
  else if p.param_type_name = "argument" then
    if s.has_variadic then .ok s
    else
      let spec := "'" ++ (if p.nargs = -1 then "*" else "") ++
        complete_type p.type p.name p.default ++ "'"
      let count : Nat := if p.nargs = -1 then 1 else p.nargs.toNat
      .ok { specs := s.specs ++ List.replicate count spec
            arg_count := s.arg_count + 1
            has_variadic := if p.nargs = -1 then true else s.has_variadic }
  else .error ("Unexpected param_type_name " ++ p.param_type_name)

/-- The parameter loop, folded left to right. -/
def foldParams (s : RState) : List ParamInfo → Except String RState
  | [] => .ok s
  | p :: ps =>
    match paramStep s p with
    | .error e => .error e
    | .ok s2 => foldParams s2 ps

/-- The parameter loop started from `specs = []`, `arg_count = 0`,
`has_variadic = False` (source lines 91–93). -/
def buildSpecs (params : List ParamInfo) : Except String RState :=
  foldParams ⟨[], 0, false⟩ params

mutual
/-- One node of the introspected command tree: name, `short_help`, `help`,
`params`, and the subcommand map.  Mutually inductive with `CmdTail`/`CmdList`
so all recursion over the tree stays structural. -/
inductive CmdInfo where
  | mk : String → Option String → Option String → List ParamInfo → CmdTail → CmdInfo

/-- Presence or absence of the `'commands'` key: `leaf` when the key is
missing, `group m` when present (possibly with an empty map). -/
inductive CmdTail where
  | leaf : CmdTail
  | group : CmdList → CmdTail

/-- The insertion-ordered `command['commands']` dict as an association list. -/
inductive CmdList where
  | nil : CmdList
  | cons : String → CmdInfo → CmdList → CmdList
end

/-- Model: `command['name']`. -/
def CmdInfo.cname : CmdInfo → String
  | .mk n _ _ _ _ => n

/-- Model: `command['params']`. -/
def CmdInfo.cparams : CmdInfo → List ParamInfo
  | .mk _ _ _ ps _ => ps

/-- The `'commands'` key (or its absence). -/
def CmdInfo.ctail : CmdInfo → CmdTail
  | .mk _ _ _ _ t => t

/-- The sub-dict of a command that `get_help` reads when listing subcommands. -/
def CmdInfo.toHelp : CmdInfo → HelpInfo
  | .mk n sh h _ _ => ⟨n, sh, h⟩

/-- The subcommand map as an ordinary association list. -/
def CmdList.toList : CmdList → List (String × CmdInfo)
  | .nil => []
  | .cons n c rest => (n, c) :: rest.toList

/-- The subcommand-enumeration entries (source lines 140–146): for each
`name, subcommand` in declared order, `quote(name, double=True)`, extended
with `\:` and the quoted normalized help when `get_help` returns one. -/
def subItems : CmdList → Except String (List String)
  | .nil => .ok []
  | .cons n sub rest =>
    match get_help sub.toHelp with
    | .error e => .error e
    | .ok helpOpt =>
      let item :=
        match helpOpt with
        | some h => quote n false true ++ "\\:" ++ quote h false true
        | none => quote n false true
      match subItems rest with
      | .error e => .error e
      | .ok items => .ok (item :: items)

/-- The two extra specs appended for a command-group (source lines 147–148):
the `:subcommand:((…))` enumeration and the `*::: := ->subcmd` catch-all. -/
def subcommandSpecs (cmds : CmdList) : Except String (List String) :=
  match subItems cmds with
  | .error e => .error e
  | .ok items =>
    .ok ["':subcommand:((" ++ String.intercalate " " items ++ "))'",
         "'*::: := ->subcmd' && return 0"]

/-- Source lines 150–151: every spec but the last becomes `  spec \`, the
last becomes `  spec`; `specs[-1]` raises `IndexError` on an empty list. -/
def layout (specs : List String) : Except String (List String) :=
  match specs.getLast? with
  | none => .error "IndexError: list index out of range"
  | some last => .ok (specs.dropLast.map (fun sp => "  " ++ sp ++ " \\") ++ ["  " ++ last])

/-- The `_arguments` opening line (source lines 83–89): `-A '-*'` exactly when
interspersed args are disallowed, `-C` exactly when the node has subcommands. -/
def mkOpenLine (allow_interspersed_args : Bool) (tail : CmdTail) : String :=
  "_arguments -s -S" ++ (if allow_interspersed_args then "" else " -A '-*'") ++
    (match tail with | .group _ => " -C" | .leaf => "") ++ " : \\"

mutual
/-- Model: `complete_command(command, allow_interspersed_args)` from the source,
producing the rendered lines for one command node.  For a command-group the
statement block is followed by a blank line, the `service=$line[arg_count+1]`
dispatch read, the `curcontext` extension, and a `case` with one recursively
rendered, four-space-indented body per subcommand. -/
def complete_command (command : CmdInfo) (allow_interspersed_args : Bool) :
    Except String (List String) :=
  match command with
  | .mk _ _ _ params tail =>
    match buildSpecs params with
    | .error e => .error e
    | .ok st =>
      match tail with
      | .leaf =>
        match layout st.specs with
        | .error e => .error e
        | .ok body => .ok (mkOpenLine allow_interspersed_args .leaf :: body)
      | .group cmds =>
        match subcommandSpecs cmds with
        | .error e => .error e
        | .ok subspecs =>
          match layout (st.specs ++ subspecs) with
          | .error e => .error e
          | .ok body =>
            match complete_subs cmds allow_interspersed_args with
            | .error e => .error e
            | .ok subLines =>
              .ok (mkOpenLine allow_interspersed_args (.group cmds) :: body
                ++ [""]
                ++ ["service=$line[" ++ toString (st.arg_count + 1) ++ "]",
                    "curcontext=$\x7bcurcontext%:*\x7d-$service:",
                    "case $service in"]
                ++ subLines
                ++ ["esac"])

/-- The `case` bodies (source lines 159–162): for each `name, subcommand` in
declared order, `  quote(name))`, the recursive lines indented four spaces,
and `  ;;`.  The flag passed to the recursive `complete_command` call is the
unchanged `allow_interspersed_args` argument. -/
def complete_subs (cmds : CmdList) (allow_interspersed_args : Bool) :
    Except String (List String) :=
  match cmds with
  | .nil => .ok []
  | .cons n sub rest =>
    match complete_command sub allow_interspersed_args with
    | .error e => .error e
    | .ok subL =>
      match complete_subs rest allow_interspersed_args with
      | .error e => .error e
      | .ok restL =>
        .ok (("  " ++ quote n false false ++ ")") :: subL.map (fun l => "    " ++ l)
             ++ ["  ;;"] ++ restL)
end

/-- Model: `complete(info)` from the source (lines 59–74): the `#compdef` header, a
blank line, the three state declarations when the root has subcommands, then
the rendered root, each line newline-terminated. -/
def complete (command : CmdInfo) (allow_interspersed_args : Bool) :
    Except String String :=
  match complete_command command allow_interspersed_args with
  | .error e => .error e
  | .ok body =>
    let lines := ["#compdef " ++ command.cname, ""]
      ++ (match command.ctail with
          | .group _ =>
            ["local curcontext=\"$curcontext\" state state_descr line",
             "typeset -A opt_args", ""]
          | .leaf => [])
      ++ body
    .ok (String.join (lines.map (fun l => l ++ "\n")))

/-! ## Dynamic type-completion lookup (`find_param_type`, `Zsh2Complete.complete`,
source lines 221–275) -/

/-- One completion candidate as returned by a click type's `shell_complete`:
a value and an optional help text. -/
structure Candidate where
  value : String
  help : Option String
  deriving DecidableEq, Repr

/-- A live click `ParamType` as the dynamic path uses it: its identifying
`name`, plus the candidates its generator returns for the empty input prefix
(`param_type.shell_complete(ctx, None, '')` — an external collaborator,
modelled by its result). -/
structure PTypeHandle where
  name : String
  candidates : List Candidate
  deriving DecidableEq, Repr

/-- A live click `Parameter` as `find_param_type` reads it: only its `type`. -/
structure ClickParam where
  type : PTypeHandle
  deriving DecidableEq, Repr

mutual
/-- A live click `Command`: its parameters and, when it is a `MultiCommand`,
its subcommands in `list_commands` order. -/
inductive ClickCmd where
  | mk : List ClickParam → ClickTail → ClickCmd

/-- Model: `isinstance(command, MultiCommand)`: `notMulti` for a plain command,
`multi subs` for a multi-command. -/
inductive ClickTail where
  | notMulti : ClickTail
  | multi : ClickList → ClickTail

/-- The subcommands of a multi-command, in `list_commands` order. -/
inductive ClickList where
  | nil : ClickList
  | cons : ClickCmd → ClickList → ClickList
end

mutual
/-- Model: `find_param_type(name, ctx, command)` from the source: first the node's
own parameters in declared order, then — only for a multi-command — each
subcommand depth-first in declared order. -/
def find_param_type (name : String) (command : ClickCmd) : Option PTypeHandle :=
  match command with
  | .mk params tail =>
    match params.find? (fun p => p.type.name == name) with
    | some p => some p.type
    | none =>
      match tail with
      | .notMulti => none
      | .multi subs => findInSubs name subs

/-- The subcommand loop of `find_param_type`: return the first subcommand's
hit, else continue. -/
def findInSubs (name : String) (subs : ClickList) : Option PTypeHandle :=
  match subs with
  | .nil => none
  | .cons c rest =>
    match find_param_type name c with
    | some t => some t
    | none => findInSubs name rest
end

/-- One serialized record `f'{x.value}\0{x.help if x.help is not None else ""}'`. -/
def candidateRecord (x : Candidate) : String :=
  x.value ++ "\x00" ++ (match x.help with | some h => h | none => "")

/-- Model: `Zsh2Complete.complete` from the source (lines 267–275): look the
requested type name up in the command tree; on a miss return `''`, otherwise
`'\0'.join` over the serialized candidates. -/
def zsh2Complete (comp_type : String) (root : ClickCmd) : String :=
  match find_param_type comp_type root with
  | none => ""
  | some pt => String.intercalate "\x00" (pt.candidates.map candidateRecord)

/-- Modelled from the spec: the record stream of §4.6 written as primitive
recursion — each candidate's `value<NUL>help-or-empty-string` record, with a
single NUL between consecutive records and no delimiter after the final
record.  Compared against `zsh2Complete`'s `join`-based serialization. -/
def serializeRecordsSpec : List Candidate → String
  | [] => ""
  | [x] => candidateRecord x
  | x :: rest => candidateRecord x ++ "\x00" ++ serializeRecordsSpec rest

/-! ## Helper functions for the claims -/

/-- The number of `arg_count` increments the parameter loop performs: one per
argument parameter, except that argument parameters after the first variadic
one are skipped; options and arity play no role. -/
def argCountAux (hasVariadic : Bool) : List ParamInfo → Nat
  | [] => 0
  | p :: ps =>
    if p.param_type_name = "option" then argCountAux hasVariadic ps
    else if p.param_type_name = "argument" then
      if hasVariadic then argCountAux hasVariadic ps
      else 1 + argCountAux (if p.nargs = -1 then true else hasVariadic) ps
    else 0

/-- The `arg_count` reached by a full parameter loop started fresh. -/
def argParamCount (params : List ParamInfo) : Nat :=
  argCountAux false params

/-- Model: `help[0].lower()` prepended to `help[1:]` (identity on the empty string,
where the source instead raises `IndexError`). -/
def lowerFirst (s : String) : String :=
  match s.data with
  | [] => s
  | c :: cs => ⟨c.toLower :: cs⟩

/-! ## Concrete fixtures and relations used by the claim theorems -/

/-- The `test` type handle of the repository's `test_complete` fixture. -/
def testHandle : PTypeHandle :=
  ⟨"test", [⟨"foo", some "foo help"⟩, ⟨"bar", some "bar help"⟩, ⟨"baz", none⟩]⟩

/-- The `test_complete` fixture tree: one plain command whose single
parameter has the `test` type. -/
def c8Tree : ClickCmd := .mk [⟨testHandle⟩] .notMulti

/-- Relation: `sub` is a (strict) descendant of `c` in the subcommand tree. -/
inductive Subcommand : CmdInfo → CmdInfo → Prop where
  | direct {c sub : CmdInfo} {cmds : CmdList} {n : String} :
      c.ctail = .group cmds → (n, sub) ∈ cmds.toList → Subcommand c sub
  | deeper {c mid sub : CmdInfo} {cmds : CmdList} {n : String} :
      c.ctail = .group cmds → (n, mid) ∈ cmds.toList → Subcommand mid sub →
      Subcommand c sub

/-- The conventional auto-generated `--help` flag option. -/
def helpOption : ParamInfo :=
  { param_type_name := "option", name := "help", opts := ["--help"], secondary_opts := []
    multiple := false, count := false, is_flag := true, nargs := 1, default := some "False"
    short_help := none, help := some "Show this message and exit.", type := .Bool }

/-- A leaf subcommand two levels below `c9Root`. -/
def c9Leaf : CmdInfo := .mk "leaf" none none [helpOption] .leaf

/-- The middle group of the three-level C9 fixture. -/
def c9Mid : CmdInfo := .mk "mid" none none [helpOption] (.group (.cons "leaf" c9Leaf .nil))

/-- A three-level command-group fixture for C9. -/
def c9Root : CmdInfo := .mk "root" none none [helpOption] (.group (.cons "mid" c9Mid .nil))

/-- The rendered lines of `c9Root` with interspersed args disallowed. -/
def c9RootLines : List String :=
  ["_arguments -s -S -A '-*' -C : \\", "  '--help[display usage information]' \\",
   "  ':subcommand:((mid))' \\", "  '*::: := ->subcmd' && return 0", "",
   "service=$line[1]", "curcontext=$\x7bcurcontext%:*\x7d-$service:", "case $service in",
   "  mid)", "    _arguments -s -S -A '-*' -C : \\",
   "      '--help[display usage information]' \\", "      ':subcommand:((leaf))' \\",
   "      '*::: := ->subcmd' && return 0", "    ", "    service=$line[1]",
   "    curcontext=$\x7bcurcontext%:*\x7d-$service:", "    case $service in",
   "      leaf)", "        _arguments -s -S -A '-*' : \\",
   "          '--help[display usage information]'", "      ;;", "    esac", "  ;;", "esac"]

/-- A fixed-arity-2 positional argument. -/
def pairArg : ParamInfo :=
  { param_type_name := "argument", name := "pair", opts := [], secondary_opts := []
    multiple := false, count := false, is_flag := false, nargs := 2, default := none
    short_help := none, help := none, type := .Other "text" }

/-- A leaf subcommand for the C1 fixture. -/
def c1Sub : CmdInfo := .mk "sub" none none [helpOption] .leaf

/-- A command-group whose params are a two-slot argument and `--help`. -/
def c1Root : CmdInfo := .mk "cli" none none [pairArg, helpOption] (.group (.cons "sub" c1Sub .nil))

/-- The rendered lines for `c1Root` with interspersed args allowed. -/
def c1RootLines : List String :=
  ["_arguments -s -S -C : \\", "  ':pair:' \\", "  ':pair:' \\",
   "  '--help[display usage information]' \\", "  ':subcommand:((sub))' \\",
   "  '*::: := ->subcmd' && return 0", "", "service=$line[2]",
   "curcontext=$\x7bcurcontext%:*\x7d-$service:", "case $service in", "  sub)",
   "    _arguments -s -S : \\", "      '--help[display usage information]'", "  ;;", "esac"]

/-! ## Shared lemmas -/

/-- Single-quote escaping never shortens a string. -/
theorem escSingleList_length (l : List Char) : l.length ≤ (escSingleList l).length := by
  induction l with
  | nil => simp [escSingleList]
  | cons c cs ih =>
    by_cases hc : c = squote <;> simp [escSingleList, hc] <;> omega

/-- Double-quote escaping never shortens a string. -/
theorem escDoubleList_length (l : List Char) : l.length ≤ (escDoubleList l).length := by
  induction l with
  | nil => simp [escDoubleList]
  | cons c cs ih =>
    by_cases hc : doubleSpecial c <;> simp [escDoubleList, hc] <;> omega

/-- Lemma: `rstrip('.')` removes a (possibly empty) run of trailing dots. -/
theorem rstripDotsList_decomp (l : List Char) :
    ∃ k, l = rstripDotsList l ++ List.replicate k '.' := by
  refine ⟨(l.reverse.takeWhile (fun c => c = '.')).length, ?_⟩
  have hsplit0 : (l.reverse.takeWhile (fun c => c = '.')) ++
      (l.reverse.dropWhile (fun c => c = '.')) = l.reverse := by simp
  have hsplit : l = (l.reverse.dropWhile (fun c => c = '.')).reverse ++
      (l.reverse.takeWhile (fun c => c = '.')).reverse := by
    conv_lhs => rw [← l.reverse_reverse, ← hsplit0]
    rw [List.reverse_append]
  rw [rstripDotsList]
  nth_rewrite 1 [hsplit]
  congr 1
  have hall : ∀ c ∈ l.reverse.takeWhile (fun c => c = '.'), c = '.' := by
    intro c hc
    simpa using List.mem_takeWhile_imp hc
  conv_lhs => rw [List.eq_replicate_of_mem hall]
  rw [List.reverse_replicate]

/-- String-level version of `rstripDotsList_decomp`. -/
theorem rstripDots_decomp (s : String) :
    ∃ k, s = rstripDots s ++ (⟨List.replicate k '.'⟩ : String) := by
  obtain ⟨k, hk⟩ := rstripDotsList_decomp s.data
  exact ⟨k, String.ext (by simpa [rstripDots] using hk)⟩

/-- The head of a `dropWhile` result falsifies the predicate. -/
theorem head?_dropWhile_false (p : α → Bool) (l : List α) (c : α)
    (h : (l.dropWhile p).head? = some c) : p c = false := by
  induction l with
  | nil => simp [List.dropWhile] at h
  | cons a as ih =>
    rw [List.dropWhile_cons] at h
    by_cases hp : p a
    · rw [if_pos hp] at h
      exact ih h
    · rw [if_neg hp] at h
      simp only [List.head?_cons, Option.some.injEq] at h
      subst h
      exact Bool.eq_false_iff.mpr hp

/-- Lemma: `rstrip('.')` leaves no trailing dot. -/
theorem rstripDots_getLast_ne (s : String) :
    (rstripDots s).data.getLast? ≠ some '.' := by
  show (rstripDotsList s.data).getLast? ≠ some '.'
  rw [rstripDotsList, List.getLast?_reverse]
  intro hcon
  have := head?_dropWhile_false (fun c => c = '.') s.data.reverse '.' hcon
  simp at this

/-! ## Claim C2 — the quoting contract -/

/-- Claim C2: `quote` returns its argument unchanged exactly when the
argument matches `^[A-Za-z0-9_+-]*$` (for the default `embed=False` entry
point; matching values are returned unchanged for every mode); otherwise the
single dialect rewrites each `'` to `'\''` and the double dialect
backslash-prefixes each of `!`, `$`, `\`, backtick, `"`, returning the body
bare when `embed` and wrapped in the dialect's quote character otherwise. -/
theorem claimC2_quote (v : String) (embed double : Bool) :
    (matchesUnquoted v = true → quote v embed double = v) ∧
    (quote v false double = v ↔ matchesUnquoted v = true) ∧
    (matchesUnquoted v = false →
      quote v true false = (⟨escSingleList v.data⟩ : String) ∧
      quote v false false = "'" ++ (⟨escSingleList v.data⟩ : String) ++ "'" ∧
      quote v true true = (⟨escDoubleList v.data⟩ : String) ∧
      quote v false true = "\"" ++ (⟨escDoubleList v.data⟩ : String) ++ "\"") := by
  refine ⟨fun h => by simp [quote, h], ⟨fun heq => ?_, fun h => by simp [quote, h]⟩,
    fun h => by simp [quote, h]⟩
  by_contra hm
  rw [Bool.not_eq_true] at hm
  have hbody : v.length + 2 ≤ (quote v false double).length := by
    cases double
    · have := escSingleList_length v.data
      simp only [quote, hm, Bool.false_eq_true, if_false, String.length_append]
      have h1 : ("'" : String).length = 1 := rfl
      have h2 : (⟨escSingleList v.data⟩ : String).length = (escSingleList v.data).length := rfl
      have h3 : v.length = v.data.length := rfl
      rw [h1, h2, h3]
      omega
    · have := escDoubleList_length v.data
      simp only [quote, hm, Bool.false_eq_true, if_false, if_true, String.length_append]
      have h1 : ("\"" : String).length = 1 := rfl
      have h2 : (⟨escDoubleList v.data⟩ : String).length = (escDoubleList v.data).length := rfl
      have h3 : v.length = v.data.length := rfl
      rw [h1, h2, h3]
      omega
  rw [heq] at hbody
  omega

/-- Witness for C2 at concrete inputs: `"foo_bar"` is returned unchanged,
`"foo s"` is single-quoted. -/
theorem claimC2_quote_witness :
    quote "foo_bar" true false = "foo_bar" ∧
    quote "foo_bar" false true = "foo_bar" ∧
    matchesUnquoted "foo s" = false ∧
    quote "foo s" false false = "'foo s'" := by
  refine ⟨(claimC2_quote "foo_bar" true false).1 (by decide),
    ((claimC2_quote "foo_bar" false true).2.1).mpr (by decide), by decide, ?_⟩
  have h := ((claimC2_quote "foo s" false false).2.2 (by decide)).2.1
  rw [h]
  decide

/-! ## Claim C3 — help-text period stripping and lowercasing -/

/-- Counterexample to claim C3: `get_help` uses `rstrip('.')`, which strips
*every* trailing period, so a text ending in several periods loses all of
them, not all but one: `'Hello..'` normalizes to `'hello'`, not `'hello.'`. -/
theorem claimC3_counterexample :
    get_help ⟨"x", none, some "Hello.."⟩ = .ok (some "hello") ∧
    get_help ⟨"x", none, some "Hello.."⟩ ≠ .ok (some "hello.") := by
  have h1 : get_help ⟨"x", none, some "Hello.."⟩ = .ok (some "hello") := rfl
  refine ⟨h1, fun hcon => ?_⟩
  rw [h1] at hcon
  simp only [Except.ok.injEq, Option.some.injEq] at hcon
  exact absurd hcon (by decide)

/-- Claim C3 as amended: for a parameter not named `help` whose selected text
(short-help preferred over help) is nonempty after stripping, `get_help`
strips *all* trailing periods (the selected text is the stripped result
followed by some run of dots, and the stripped result has no trailing dot),
then lowercases the first character if and only if the first word has no
uppercase letter after its first character. -/
theorem claimC3_get_help_strips_all_periods (p : HelpInfo) (h : String)
    (hname : p.name ≠ "help") (hsel : selectedHelp p = some h)
    (hne : rstripDots h ≠ "") :
    (∃ k, h = rstripDots h ++ (⟨List.replicate k '.'⟩ : String)) ∧
    (rstripDots h).data.getLast? ≠ some '.' ∧
    get_help p =
      .ok (some (if ((firstWord (rstripDots h)).drop 1).data.all (fun c => ¬ c.isUpper)
                 then lowerFirst (rstripDots h) else rstripDots h)) := by
  refine ⟨rstripDots_decomp h, rstripDots_getLast_ne h, ?_⟩
  unfold get_help
  rw [hsel]
  simp only [if_neg hname]
  by_cases hcond : ((firstWord (rstripDots h)).drop 1).data.all (fun c => ¬ c.isUpper) = true
  · rw [if_pos hcond, if_pos hcond]
    cases hdata : (rstripDots h).data with
    | nil => exact absurd (@String.ext (rstripDots h) "" hdata) hne
    | cons c cs =>
      simp only [lowerFirst, hdata]
  · rw [if_neg hcond, if_neg hcond]

/-- Witness for the amended C3 at concrete parameters: `'Be more verbose.'`
lowercases, `'LDAP hostname.'` (interior uppercase in the first word) does
not, and `'Hello..'` loses both periods. -/
theorem claimC3_witness :
    get_help ⟨"verbose", none, some "Be more verbose."⟩ = .ok (some "be more verbose") ∧
    get_help ⟨"hostname", none, some "LDAP hostname."⟩ = .ok (some "LDAP hostname") ∧
    get_help ⟨"x", some "Hello..", none⟩ = .ok (some "hello") := by
  refine ⟨?_, ?_, ?_⟩
  · have h := (claimC3_get_help_strips_all_periods ⟨"verbose", none, some "Be more verbose."⟩
      "Be more verbose." (by decide) rfl (by decide)).2.2
    rw [h]
    rfl
  · have h := (claimC3_get_help_strips_all_periods ⟨"hostname", none, some "LDAP hostname."⟩
      "LDAP hostname." (by decide) rfl (by decide)).2.2
    rw [h]
    rfl
  · have h := (claimC3_get_help_strips_all_periods ⟨"x", some "Hello..", none⟩
      "Hello.." (by decide) rfl (by decide)).2.2
    rw [h]
    rfl

/-! ## Claim C7 — the `help`-named parameter -/

/-- Counterexample to claim C7 as universally stated: the `name == 'help'`
test sits *after* the missing-help early return, so a parameter named `help`
with neither `short_help` nor `help` text yields `None`, not the fixed
string. -/
theorem claimC7_counterexample :
    get_help ⟨"help", none, none⟩ = .ok none ∧
    get_help ⟨"help", none, none⟩ ≠ .ok (some "display usage information") := by
  refine ⟨rfl, fun hcon => ?_⟩
  rw [show get_help ⟨"help", none, none⟩ = .ok none from rfl] at hcon
  simp at hcon

/-- Claim C7 as amended: for a parameter named `help` that has at least one of
`short_help`/`help` present, `get_help` returns the fixed string
`"display usage information"` regardless of what that text says. -/
theorem claimC7_help_named (p : HelpInfo) (hname : p.name = "help")
    (hpresent : selectedHelp p ≠ none) :
    get_help p = .ok (some "display usage information") := by
  unfold get_help
  cases hsel : selectedHelp p with
  | none => exact absurd hsel hpresent
  | some h => simp [hname]

/-- Witness for the amended C7: the conventional auto-generated help option
keeps the fixed phrasing whatever its declared text. -/
theorem claimC7_witness :
    selectedHelp ⟨"help", none, some "Show this message and exit."⟩ ≠ none ∧
    get_help ⟨"help", none, some "Show this message and exit."⟩ =
      .ok (some "display usage information") :=
  ⟨by decide, claimC7_help_named ⟨"help", none, some "Show this message and exit."⟩ rfl (by decide)⟩

/-! ## Claim C10 — `IndexError` on help text that strips to empty -/

/-- Claim C10: for a parameter not named `help` whose selected help text
strips to the empty string (e.g. `'.'` or `''`), `get_help` raises an
unhandled `IndexError` (the `help[0]` access) instead of returning a value. -/
theorem claimC10_get_help_index_error (p : HelpInfo) (h : String)
    (hname : p.name ≠ "help") (hsel : selectedHelp p = some h)
    (hempty : rstripDots h = "") :
    get_help p = .error "IndexError: string index out of range" := by
  unfold get_help
  rw [hsel]
  simp only [if_neg hname]
  rw [hempty]
  rfl

/-- Witness for C10 at the concrete inputs the claim names: help text `'.'`
and help text `''`. -/
theorem claimC10_witness :
    get_help ⟨"x", none, some "."⟩ = .error "IndexError: string index out of range" ∧
    get_help ⟨"y", some "", none⟩ = .error "IndexError: string index out of range" :=
  ⟨claimC10_get_help_index_error ⟨"x", none, some "."⟩ "." (by decide) rfl (by decide),
   claimC10_get_help_index_error ⟨"y", some "", none⟩ "" (by decide) rfl (by decide)⟩

/-! ## Claim C5 — tuple-typed options and arity repetition -/

/-- Joining a single fragment is that fragment. -/
theorem intercalate_singleton (s x : String) : String.intercalate s [x] = x := rfl

/-- Helper: `completeTypeParts` is the map of `complete_type` with an absent default
over the nested types. -/
theorem completeTypeParts_eq_map : ∀ (l : PTypeList) (name : String),
    completeTypeParts l name = l.toList.map (fun t => complete_type t name none)
  | .nil, _ => rfl
  | .cons t rest, name => by
    simp only [completeTypeParts, PTypeList.toList, List.map_cons]
    rw [completeTypeParts_eq_map rest name]

/-- Claim C5: a non-flag, non-counter option with a `Tuple` type appends its
value-spec fragment exactly once whatever `nargs` says; any other type's
fragment is repeated `nargs` times; and the `Tuple` fragment is the
space-join of the recursively built fragments of the nested types, each
nested element receiving an absent default (so the fragment is independent of
the tuple's own default). -/
theorem claimC5_tuple_value_spec (p : ParamInfo) (ts : PTypeList) (name : String)
    (d : Option String) (hflag : p.is_flag = false) (hcount : p.count = false)
    (_hpname : p.name ≠ "") (_hname : name ≠ "") :
    (isTuple p.type = true → optionValueClause p = complete_type p.type p.name p.default) ∧
    (isTuple p.type = false →
      optionValueClause p = String.intercalate " "
        (List.replicate p.nargs.toNat (complete_type p.type p.name p.default))) ∧
    (complete_type (.Tuple ts) name d =
      String.intercalate " " (ts.toList.map (fun t => complete_type t name none))) := by
  refine ⟨fun ht => ?_, fun ht => ?_, ?_⟩
  · simp [optionValueClause, hflag, hcount, ht, intercalate_singleton]
  · simp [optionValueClause, hflag, hcount, ht]
  · simp [complete_type, completeTypeParts_eq_map]

/-- Witness for C5: the two-member tuple option `--item` (declared
`nargs = 2`) renders its value clause once as `":item: :item:"`, while the
`nargs = 2` float option `--pos` repeats its fragment twice. -/
theorem claimC5_witness :
    optionValueClause
      { param_type_name := "option", name := "item", opts := ["--item"], secondary_opts := []
        multiple := false, count := false, is_flag := false, nargs := 2, default := none
        short_help := none, help := none
        type := .Tuple (.cons (.Other "text") (.cons (.Other "integer") .nil)) } =
      ":item: :item:" ∧
    optionValueClause
      { param_type_name := "option", name := "pos", opts := ["--pos"], secondary_opts := []
        multiple := false, count := false, is_flag := false, nargs := 2, default := none
        short_help := none, help := none, type := .Other "float" } =
      ":pos: :pos:" ∧
    complete_type (.Tuple (.cons (.Other "text") (.cons (.Other "integer") .nil))) "item"
      (some "ignored") = ":item: :item:" := by
  refine ⟨?_, ?_, ?_⟩
  · have h := (claimC5_tuple_value_spec
      { param_type_name := "option", name := "item", opts := ["--item"], secondary_opts := []
        multiple := false, count := false, is_flag := false, nargs := 2, default := none
        short_help := none, help := none
        type := .Tuple (.cons (.Other "text") (.cons (.Other "integer") .nil)) }
      (.cons (.Other "text") (.cons (.Other "integer") .nil)) "item" none rfl rfl
      (by decide) (by decide)).1 rfl
    rw [h]
    rfl
  · have h := (claimC5_tuple_value_spec
      { param_type_name := "option", name := "pos", opts := ["--pos"], secondary_opts := []
        multiple := false, count := false, is_flag := false, nargs := 2, default := none
        short_help := none, help := none, type := .Other "float" }
      .nil "pos" none rfl rfl (by decide) (by decide)).2.1 rfl
    rw [h]
    rfl
  · have h := (claimC5_tuple_value_spec
      { param_type_name := "option", name := "item", opts := ["--item"], secondary_opts := []
        multiple := false, count := false, is_flag := false, nargs := 2, default := none
        short_help := none, help := none
        type := .Tuple (.cons (.Other "text") (.cons (.Other "integer") .nil)) }
      (.cons (.Other "text") (.cons (.Other "integer") .nil)) "item" (some "ignored") rfl rfl
      (by decide) (by decide)).2.2
    rw [h]
    rfl

/-! ## Claim C6 — numeric-range completion actions -/

/-- Claim C6: for `IntRange`/`FloatRange` descriptors `complete_type` emits a
`_numbers` action carrying `-f` exactly when the type is `FloatRange`, `-d`
exactly when a default is present, `-l` when `min` is present (an open
minimum incremented by one only for `IntRange`), `-m` when `max` is present
(an open maximum decremented by one only for `IntRange`), trailed by the
parameter's (double-dialect quoted) name. -/
theorem claimC6_numeric_range (mn mx : Option Int) (mno mxo : Bool)
    (fmn fmx : Option String) (fmno fmxo : Bool) (name : String) (d : Option String)
    (_hname : name ≠ "") :
    (complete_type (.IntRange mn mx mno mxo) name d =
      ": :_numbers" ++
        (match d with | some dv => " -d " ++ dv | none => "") ++
        (match mn with | some m => " -l " ++ toString (if mno then m + 1 else m) | none => "") ++
        (match mx with | some m => " -m " ++ toString (if mxo then m - 1 else m) | none => "") ++
        " " ++ quote name false true) ∧
    (complete_type (.FloatRange fmn fmx fmno fmxo) name d =
      ": :_numbers -f" ++
        (match d with | some dv => " -d " ++ dv | none => "") ++
        (match fmn with | some m => " -l " ++ m | none => "") ++
        (match fmx with | some m => " -m " ++ m | none => "") ++
        " " ++ quote name false true) := by
  constructor
  · cases d <;> cases mn <;> cases mx <;>
      (refine String.ext ?_
       simp [complete_type, String.data_append, List.append_assoc])
  · cases d <;> cases fmn <;> cases fmx <;>
      (refine String.ext ?_
       simp [complete_type, String.data_append, List.append_assoc])

/-- Witness for C6 at the repository's own doctest inputs:
`IntRange(0, 24, max_open=True)` for `hour` and `FloatRange(0, 360)` with
default `0` for `rotation`. -/
theorem claimC6_witness :
    complete_type (.IntRange (some 0) (some 24) false true) "hour" none =
      ": :_numbers -l 0 -m 23 hour" ∧
    complete_type (.FloatRange (some "0") (some "360") false false) "rotation" (some "0") =
      ": :_numbers -f -d 0 -l 0 -m 360 rotation" := by
  constructor
  · have h := (claimC6_numeric_range (some 0) (some 24) false true none none false false
      "hour" none (by decide)).1
    rw [h]
    rfl
  · have h := (claimC6_numeric_range none none false false (some "0") (some "360") false false
      "rotation" (some "0") (by decide)).2
    rw [h]
    rfl

/-! ## Claim C4 — variadic arguments suppress later arguments -/

/-- An option step never touches `arg_count` or the variadic flag. -/
theorem paramStep_option_inv (s s2 : RState) (p : ParamInfo)
    (hopt : p.param_type_name = "option") (hstep : paramStep s p = .ok s2) :
    s2.arg_count = s.arg_count ∧ s2.has_variadic = s.has_variadic := by
  unfold paramStep at hstep
  rw [if_pos hopt] at hstep
  cases hos : optionSpec p with
  | error e => rw [hos] at hstep; simp at hstep
  | ok sp =>
    rw [hos] at hstep
    simp only [Except.ok.injEq] at hstep
    subst hstep
    exact ⟨rfl, rfl⟩

/-- With the variadic flag already set, the parameter loop ignores every
remaining argument parameter: the fold is unchanged if they are removed. -/
theorem foldParams_skip_arguments : ∀ (ps : List ParamInfo) (s : RState),
    s.has_variadic = true →
    foldParams s ps = foldParams s (ps.filter (fun q => q.param_type_name ≠ "argument"))
  | [], _, _ => rfl
  | p :: ps, s, hv => by
    rw [List.filter_cons]
    by_cases hopt : p.param_type_name = "option"
    · rw [if_pos (by simp [hopt])]
      simp only [foldParams]
      cases hstep : paramStep s p with
      | error e => rfl
      | ok s2 =>
        have hpres := (paramStep_option_inv s s2 p hopt hstep).2
        exact foldParams_skip_arguments ps s2 (hpres.trans hv)
    · by_cases harg : p.param_type_name = "argument"
      · rw [if_neg (by simp [harg])]
        simp only [foldParams]
        have hstep : paramStep s p = .ok s := by
          unfold paramStep
          rw [if_neg (fun hc => hopt hc), if_pos harg, if_pos hv]
        rw [hstep]
        exact foldParams_skip_arguments ps s hv
      · rw [if_pos (by simp [harg])]
        simp only [foldParams]
        have hstep : paramStep s p = .error ("Unexpected param_type_name " ++ p.param_type_name) := by
          unfold paramStep
          rw [if_neg hopt, if_neg harg]
        rw [hstep]

/-- Claim C4: within one command node, (a) once the variadic flag is set an
argument step is the identity, (b) once set, every later argument parameter
contributes nothing (removing them does not change the fold), and (c) a
variadic argument (`nargs = -1`) processed with the flag clear contributes
exactly one spec prefixed with the `*` repeat marker and sets the flag. -/
theorem claimC4_variadic_suppression (s : RState) (p : ParamInfo) (ps : List ParamInfo) :
    (s.has_variadic = true → p.param_type_name = "argument" → paramStep s p = .ok s) ∧
    (s.has_variadic = true →
      foldParams s ps = foldParams s (ps.filter (fun q => q.param_type_name ≠ "argument"))) ∧
    (s.has_variadic = false → p.param_type_name = "argument" → p.nargs = -1 → p.name ≠ "" →
      paramStep s p = .ok ⟨s.specs ++ ["'*" ++ complete_type p.type p.name p.default ++ "'"],
        s.arg_count + 1, true⟩) := by
  refine ⟨fun hv harg => ?_, fun hv => foldParams_skip_arguments ps s hv,
    fun hv harg hn _ => ?_⟩
  · unfold paramStep
    rw [if_neg (by rw [harg]; decide), if_pos harg, if_pos hv]
  · unfold paramStep
    rw [if_neg (by rw [harg]; decide), if_pos harg, if_neg (by rw [hv]; decide)]
    simp [hn]

/-- Witness for C4: with the flag set, the fixed argument `dest` is skipped
and contributes nothing; with the flag clear, the variadic argument `src`
contributes exactly the single starred spec `'*:src:_files'`. -/
theorem claimC4_witness :
    paramStep ⟨["'*:src:_files'"], 1, true⟩
      { param_type_name := "argument", name := "dest", opts := [], secondary_opts := []
        multiple := false, count := false, is_flag := false, nargs := 1, default := none
        short_help := none, help := none, type := .File } =
      .ok ⟨["'*:src:_files'"], 1, true⟩ ∧
    foldParams ⟨["'*:src:_files'"], 1, true⟩
      [{ param_type_name := "argument", name := "dest", opts := [], secondary_opts := []
         multiple := false, count := false, is_flag := false, nargs := 1, default := none
         short_help := none, help := none, type := .File }] =
      foldParams ⟨["'*:src:_files'"], 1, true⟩ [] ∧
    paramStep ⟨[], 0, false⟩
      { param_type_name := "argument", name := "src", opts := [], secondary_opts := []
        multiple := false, count := false, is_flag := false, nargs := -1, default := none
        short_help := none, help := none, type := .File } =
      .ok ⟨["'*:src:_files'"], 1, true⟩ := by
  refine ⟨?_, ?_, ?_⟩
  · exact (claimC4_variadic_suppression ⟨["'*:src:_files'"], 1, true⟩
      { param_type_name := "argument", name := "dest", opts := [], secondary_opts := []
        multiple := false, count := false, is_flag := false, nargs := 1, default := none
        short_help := none, help := none, type := .File } []).1 rfl rfl
  · exact (claimC4_variadic_suppression ⟨["'*:src:_files'"], 1, true⟩
      { param_type_name := "argument", name := "dest", opts := [], secondary_opts := []
        multiple := false, count := false, is_flag := false, nargs := 1, default := none
        short_help := none, help := none, type := .File }
      [{ param_type_name := "argument", name := "dest", opts := [], secondary_opts := []
         multiple := false, count := false, is_flag := false, nargs := 1, default := none
         short_help := none, help := none, type := .File }]).2.1 rfl
  · exact (claimC4_variadic_suppression ⟨[], 0, false⟩
      { param_type_name := "argument", name := "src", opts := [], secondary_opts := []
        multiple := false, count := false, is_flag := false, nargs := -1, default := none
        short_help := none, help := none, type := .File } []).2.2 rfl rfl rfl (by decide)

/-! ## Claim C8 — dynamic completion serialization -/

/-- Pulling a common prefix out of `String.intercalate.go`'s accumulator. -/
theorem intercalate_go_append (s : String) : ∀ (as : List String) (acc₁ acc₂ : String),
    String.intercalate.go (acc₁ ++ acc₂) s as = acc₁ ++ String.intercalate.go acc₂ s as
  | [], _, _ => rfl
  | a :: as, acc₁, acc₂ => by
    simp only [String.intercalate.go]
    rw [String.append_assoc acc₁ acc₂ s, String.append_assoc acc₁ (acc₂ ++ s) a]
    exact intercalate_go_append s as acc₁ ((acc₂ ++ s) ++ a)

/-- Joining at least two fragments puts a single separator
after the head. -/
theorem intercalate_cons₂ (s a b : String) (t : List String) :
    String.intercalate s (a :: b :: t) = a ++ s ++ String.intercalate s (b :: t) := by
  show String.intercalate.go ((a ++ s) ++ b) s t = a ++ s ++ String.intercalate.go b s t
  rw [intercalate_go_append s t (a ++ s) b]

/-- The `'\0'.join` serialization equals the spec's record stream: one
`value<NUL>help` record per candidate, single NULs between records, no
trailing delimiter. -/
theorem join_eq_serializeRecordsSpec : ∀ l : List Candidate,
    String.intercalate "\x00" (l.map candidateRecord) = serializeRecordsSpec l
  | [] => rfl
  | [_] => rfl
  | x :: y :: rest => by
    rw [List.map_cons, List.map_cons, intercalate_cons₂, ← List.map_cons,
      join_eq_serializeRecordsSpec (y :: rest)]
    rfl

/-- Claim C8: the dynamic-completion entry point returns `""` when no
parameter type with the requested name exists in the command tree, and
otherwise returns the candidates as `value`, NUL, help-or-empty records
joined by NUL with no delimiter after the final record. -/
theorem claimC8_dynamic_complete (name : String) (root : ClickCmd) :
    (find_param_type name root = none → zsh2Complete name root = "") ∧
    (∀ pt, find_param_type name root = some pt →
      zsh2Complete name root = serializeRecordsSpec pt.candidates) := by
  constructor
  · intro h
    unfold zsh2Complete
    rw [h]
  · intro pt h
    unfold zsh2Complete
    rw [h]
    exact join_eq_serializeRecordsSpec pt.candidates

/-- Witness for C8, mirroring the repository's own `test_complete`: a command
whose single argument has type `test` with three candidates (the last without
help); an unregistered identifier yields the empty string. -/
theorem claimC8_witness :
    find_param_type "does_not_exist" c8Tree = none ∧
    zsh2Complete "does_not_exist" c8Tree = "" ∧
    find_param_type "test" c8Tree = some testHandle ∧
    zsh2Complete "test" c8Tree = "foo\x00foo help\x00bar\x00bar help\x00baz\x00" := by
  refine ⟨rfl, ?_, rfl, ?_⟩
  · exact (claimC8_dynamic_complete "does_not_exist" c8Tree).1 rfl
  · have h := (claimC8_dynamic_complete "test" c8Tree).2 testHandle rfl
    rw [h]
    rfl

/-! ## Claims C9 and C1 — renderer structure lemmas -/

/-- Every successful `complete_command` output starts with the `_arguments`
opening line built from the flag it was called with. -/
theorem complete_command_head (c : CmdInfo) (a : Bool) (lines : List String)
    (h : complete_command c a = .ok lines) :
    lines.head? = some (mkOpenLine a c.ctail) := by
  cases c with
  | mk n sh hp params tail =>
    unfold complete_command at h
    cases hbs : buildSpecs params with
    | error e => rw [hbs] at h; simp at h
    | ok st =>
      rw [hbs] at h
      simp only [] at h
      cases tail with
      | leaf =>
        cases hly : layout st.specs with
        | error e => rw [hly] at h; simp at h
        | ok body =>
          rw [hly] at h
          simp only [Except.ok.injEq] at h
          subst h
          rfl
      | group cmds =>
        simp only [] at h
        cases hss : subcommandSpecs cmds with
        | error e => rw [hss] at h; simp at h
        | ok subspecs =>
          rw [hss] at h
          simp only [] at h
          cases hly : layout (st.specs ++ subspecs) with
          | error e => rw [hly] at h; simp at h
          | ok body =>
            rw [hly] at h
            simp only [] at h
            cases hcs : complete_subs cmds a with
            | error e => rw [hcs] at h; simp at h
            | ok subLines =>
              rw [hcs] at h
              simp only [Except.ok.injEq] at h
              subst h
              rfl

/-- Inversion of a successful `complete_command` on a command-group node:
the intermediate results exist and the output has the dispatch shape, with
the `service=$line[…]` index taken from the parameter loop's `arg_count`. -/
theorem complete_command_group_inv (c : CmdInfo) (a : Bool) (cmds : CmdList)
    (lines : List String) (htail : c.ctail = .group cmds)
    (hok : complete_command c a = .ok lines) :
    ∃ st subspecs body subLines,
      buildSpecs c.cparams = .ok st ∧
      subcommandSpecs cmds = .ok subspecs ∧
      layout (st.specs ++ subspecs) = .ok body ∧
      complete_subs cmds a = .ok subLines ∧
      lines = mkOpenLine a (.group cmds) :: body ++ [""]
        ++ ["service=$line[" ++ toString (st.arg_count + 1) ++ "]",
            "curcontext=$\x7bcurcontext%:*\x7d-$service:",
            "case $service in"]
        ++ subLines ++ ["esac"] := by
  cases c with
  | mk n sh hp params tail =>
    have htail' : tail = .group cmds := htail
    subst htail'
    unfold complete_command at hok
    cases hbs : buildSpecs params with
    | error e => rw [hbs] at hok; simp at hok
    | ok st =>
      rw [hbs] at hok
      simp only [] at hok
      cases hss : subcommandSpecs cmds with
      | error e => rw [hss] at hok; simp at hok
      | ok subspecs =>
        rw [hss] at hok
        simp only [] at hok
        cases hly : layout (st.specs ++ subspecs) with
        | error e => rw [hly] at hok; simp at hok
        | ok body =>
          rw [hly] at hok
          simp only [] at hok
          cases hcs : complete_subs cmds a with
          | error e => rw [hcs] at hok; simp at hok
          | ok subLines =>
            rw [hcs] at hok
            simp only [Except.ok.injEq] at hok
            exact ⟨st, subspecs, body, subLines, hbs, rfl, hly, rfl, hok.symm⟩

/-- Each subcommand's successfully rendered lines appear four-space-indented
inside a successful `complete_subs` output. -/
theorem complete_subs_mem : ∀ (cmds : CmdList) (a : Bool) (out : List String),
    complete_subs cmds a = .ok out →
    ∀ (n : String) (sub : CmdInfo), (n, sub) ∈ cmds.toList →
    ∃ subL, complete_command sub a = .ok subL ∧ ∀ l ∈ subL, ("    " ++ l) ∈ out
  | .nil, a, out, _, n, sub, hmem => by simp [CmdList.toList] at hmem
  | .cons n0 c0 rest, a, out, hout, n, sub, hmem => by
    unfold complete_subs at hout
    cases hc0 : complete_command c0 a with
    | error e => rw [hc0] at hout; simp at hout
    | ok subL0 =>
      rw [hc0] at hout
      simp only [] at hout
      cases hrest : complete_subs rest a with
      | error e => rw [hrest] at hout; simp at hout
      | ok restL =>
        rw [hrest] at hout
        simp only [Except.ok.injEq] at hout
        subst hout
        simp only [CmdList.toList, List.mem_cons] at hmem
        rcases hmem with heq | hmem'
        · rw [Prod.mk.injEq] at heq
          obtain ⟨rfl, rfl⟩ := heq
          refine ⟨subL0, hc0, fun l hl => ?_⟩
          exact List.mem_cons_of_mem _
            (List.mem_append_left _ (List.mem_append_left _ (List.mem_map_of_mem _ hl)))
        · obtain ⟨subL, h1, h2⟩ := complete_subs_mem rest a restL hrest n sub hmem'
          refine ⟨subL, h1, fun l hl => ?_⟩
          exact List.mem_cons_of_mem _ (List.mem_append_right _ (h2 l hl))

/-- Each direct subcommand of a successfully rendered command-group renders
successfully itself, and its lines appear four-space-indented in the parent's
output. -/
theorem complete_command_sub_mem (c : CmdInfo) (a : Bool) (cmds : CmdList)
    (lines : List String) (htail : c.ctail = .group cmds)
    (hok : complete_command c a = .ok lines)
    (n : String) (sub : CmdInfo) (hmem : (n, sub) ∈ cmds.toList) :
    ∃ subL, complete_command sub a = .ok subL ∧ ∀ l ∈ subL, ("    " ++ l) ∈ lines := by
  obtain ⟨st, subspecs, body, subLines, _, _, _, hcs, hshape⟩ :=
    complete_command_group_inv c a cmds lines htail hok
  obtain ⟨subL, h1, h2⟩ := complete_subs_mem cmds a subLines hcs n sub hmem
  refine ⟨subL, h1, fun l hl => ?_⟩
  subst hshape
  exact List.mem_cons_of_mem _
    (List.mem_append_left _ (List.mem_append_right _ (h2 l hl)))

/-- A successful output contains its own opening line. -/
theorem complete_command_open_mem (c : CmdInfo) (a : Bool) (lines : List String)
    (h : complete_command c a = .ok lines) : mkOpenLine a c.ctail ∈ lines := by
  have hh := complete_command_head c a lines h
  cases lines with
  | nil => simp at hh
  | cons l0 ls =>
    simp only [List.head?_cons, Option.some.injEq] at hh
    rw [← hh]
    exact List.mem_cons_self l0 ls

/-- Claim C9: the interspersed-args flag read at the root is passed unchanged
to every recursive `complete_command` call, so every (arbitrarily deeply)
nested subcommand's opening line — which appears in the root's output under
some indentation — carries the restrict-to-options flag `-A '-*'` exactly
when the root flag is false; the subcommand's own data affects only the `-C`
part.  (Command info dicts carry no per-node `allow_interspersed_args`, so no
subcommand-local setting can influence the flag.) -/
theorem claimC9_flag_inherited (c sub : CmdInfo) (a : Bool) (lines : List String)
    (hdesc : Subcommand c sub) (hok : complete_command c a = .ok lines) :
    ∃ k, ((⟨List.replicate k ' '⟩ : String) ++
      ("_arguments -s -S" ++ (if a then "" else " -A '-*'") ++
        (match sub.ctail with | .group _ => " -C" | .leaf => "") ++ " : \\")) ∈ lines := by
  induction hdesc generalizing lines with
  | direct htail hmem =>
    rename_i c' sub' cmds n
    obtain ⟨subL, hsubok, hind⟩ :=
      complete_command_sub_mem c' a cmds lines htail hok n sub' hmem
    refine ⟨4, ?_⟩
    have hm := hind _ (complete_command_open_mem sub' a subL hsubok)
    exact hm
  | deeper htail hmem hsub ih =>
    rename_i c' mid sub' cmds n
    obtain ⟨subL, hsubok, hind⟩ :=
      complete_command_sub_mem c' a cmds lines htail hok n mid hmem
    obtain ⟨k, hk⟩ := ih subL hsubok
    refine ⟨k + 4, ?_⟩
    have hm := hind _ hk
    have heq : ((⟨List.replicate (k + 4) ' '⟩ : String) ++
        ("_arguments -s -S" ++ (if a then "" else " -A '-*'") ++
          (match sub'.ctail with | .group _ => " -C" | .leaf => "") ++ " : \\")) =
        "    " ++ ((⟨List.replicate k ' '⟩ : String) ++
        ("_arguments -s -S" ++ (if a then "" else " -A '-*'") ++
          (match sub'.ctail with | .group _ => " -C" | .leaf => "") ++ " : \\")) := by
      refine String.ext ?_
      simp only [String.data_append]
      rw [show k + 4 = 4 + k from Nat.add_comm k 4, List.replicate_add]
      rw [List.append_assoc]
      rfl
    rw [heq]
    exact hm

/-- Witness for C9: in the three-level fixture rendered with the root flag
false, the doubly nested leaf's opening line carries the root-determined
`-A '-*'` flag. -/
theorem claimC9_witness :
    complete_command c9Root false = .ok c9RootLines ∧
    (∃ k, ((⟨List.replicate k ' '⟩ : String) ++
      ("_arguments -s -S" ++ (if false then "" else " -A '-*'") ++
        (match c9Leaf.ctail with | .group _ => " -C" | .leaf => "") ++ " : \\")) ∈
      c9RootLines) := by
  refine ⟨rfl, ?_⟩
  exact claimC9_flag_inherited c9Root c9Leaf false c9RootLines
    (@Subcommand.deeper c9Root c9Mid c9Leaf (.cons "mid" c9Mid .nil) "mid" rfl
      (by simp [CmdList.toList])
      (@Subcommand.direct c9Mid c9Leaf (.cons "leaf" c9Leaf .nil) "leaf" rfl
        (by simp [CmdList.toList])))
    rfl

/-- The parameter loop's `arg_count` after a successful fold is the
`argCountAux` count on top of the starting state. -/
theorem foldParams_arg_count : ∀ (ps : List ParamInfo) (s s2 : RState),
    foldParams s ps = .ok s2 → s2.arg_count = s.arg_count + argCountAux s.has_variadic ps
  | [], s, s2, h => by
    simp only [foldParams, Except.ok.injEq] at h
    subst h
    simp [argCountAux]
  | p :: ps, s, s2, h => by
    simp only [foldParams] at h
    cases hstep : paramStep s p with
    | error e => rw [hstep] at h; simp at h
    | ok smid =>
      rw [hstep] at h
      simp only [] at h
      have hrec := foldParams_arg_count ps smid s2 h
      by_cases hopt : p.param_type_name = "option"
      · obtain ⟨hac, hv⟩ := paramStep_option_inv s smid p hopt hstep
        rw [hrec, hac, hv]
        have haux : argCountAux s.has_variadic (p :: ps) = argCountAux s.has_variadic ps := by
          simp [argCountAux, hopt]
        rw [haux]
      · by_cases harg : p.param_type_name = "argument"
        · unfold paramStep at hstep
          rw [if_neg hopt, if_pos harg] at hstep
          by_cases hv : s.has_variadic = true
          · rw [if_pos hv] at hstep
            simp only [Except.ok.injEq] at hstep
            subst hstep
            rw [hrec]
            have haux : argCountAux s.has_variadic (p :: ps) = argCountAux s.has_variadic ps := by
              simp [argCountAux, harg, hv]
            rw [haux]
          · rw [if_neg hv] at hstep
            simp only [Except.ok.injEq] at hstep
            subst hstep
            have hrec2 : s2.arg_count = s.arg_count + 1 +
                argCountAux (if p.nargs = -1 then true else s.has_variadic) ps := hrec
            have hvf : s.has_variadic = false := by simpa using hv
            have haux : argCountAux s.has_variadic (p :: ps) =
                1 + argCountAux (if p.nargs = -1 then true else s.has_variadic) ps := by
              simp [argCountAux, harg, hvf]
            rw [hrec2, haux, hvf]
            omega
        · unfold paramStep at hstep
          rw [if_neg hopt, if_neg harg] at hstep
          simp at hstep

/-- Claim C1 as amended: for a command-group node the dispatch line reads the
positional array at `argParamCount(params) + 1`, where `argParamCount` counts
*one per argument parameter processed* (arguments after the first variadic are
skipped) — not one per positional slot, so a fixed-arity-N argument still
contributes only 1, whatever N. -/
theorem claimC1_service_index (c : CmdInfo) (a : Bool) (cmds : CmdList)
    (lines : List String) (htail : c.ctail = .group cmds)
    (hok : complete_command c a = .ok lines) :
    ("service=$line[" ++ toString (argParamCount c.cparams + 1) ++ "]") ∈ lines := by
  obtain ⟨st, subspecs, body, subLines, hbs, _, _, _, hshape⟩ :=
    complete_command_group_inv c a cmds lines htail hok
  have harg : st.arg_count = argParamCount c.cparams := by
    have h0 := foldParams_arg_count c.cparams ⟨[], 0, false⟩ st hbs
    simpa [argParamCount] using h0
  subst hshape
  rw [← harg]
  have h3 : ("service=$line[" ++ toString (st.arg_count + 1) ++ "]") ∈
      ["service=$line[" ++ toString (st.arg_count + 1) ++ "]",
       "curcontext=$\x7bcurcontext%:*\x7d-$service:", "case $service in"] :=
    List.mem_cons_self _ _
  exact List.mem_cons_of_mem _ (List.mem_append_left _ (List.mem_append_left _
    (List.mem_append_right _ h3)))

/-- Counterexample to claim C1 as stated: `c1Root`'s arity-2 argument
occupies two positional slots (its spec is emitted twice), so the claim's
slot-counting rule predicts `service=$line[3]`; the code emits
`service=$line[2]`, because `arg_count` is incremented once per argument
parameter, not once per slot. -/
theorem claimC1_counterexample :
    complete_command c1Root true = .ok c1RootLines ∧
    c1RootLines.count "  ':pair:' \\" = 2 ∧
    "service=$line[2]" ∈ c1RootLines ∧
    ¬ "service=$line[3]" ∈ c1RootLines := by
  exact ⟨rfl, by decide, by decide, by decide⟩

/-- Witness for the amended C1 at the `c1Root` fixture: one argument
parameter processed, so the dispatch line reads index 2. -/
theorem claimC1_witness :
    argParamCount c1Root.cparams + 1 = 2 ∧ "service=$line[2]" ∈ c1RootLines := by
  refine ⟨rfl, ?_⟩
  exact claimC1_service_index c1Root true (.cons "sub" c1Sub .nil) c1RootLines rfl rfl
